import Mathlib

/-!
Verification of the status-tracker core: feed parsing (tag stripping,
status extraction, component extraction), the per-provider poll cycle
(conditional fetch state, content-hash change detection, first-run
seeding, incident diffing) and the backoff controller.

The definitions below are a shallow embedding of the Python sources
(tracker/feed_parser.py, tracker/monitor.py, tracker/models.py):
strings are lists of characters, Python sets/dicts are lists with
set/assoc-map operations, and the impure pieces (HTTP response, random
jitter, hash functions) are explicit parameters.
-/

namespace StatusTracker

/-! ### Python string helpers -/

/-- Python str whitespace (ASCII part), as used by str.split and str.strip. -/
def isPySpace (c : Char) : Bool :=
  c = ' ' || c = '\t' || c = '\n' || c = '\r' || c = '\x0b' || c = '\x0c'

/-- Python str.strip(): drop leading and trailing whitespace. -/
def pyStrip (s : List Char) : List Char :=
  ((s.dropWhile (fun c => isPySpace c)).reverse.dropWhile (fun c => isPySpace c)).reverse

/-- Helper for pySplit: acc holds the current word reversed. -/
def pySplitAux : List Char → List Char → List (List Char)
  | [], acc => if acc = [] then [] else [acc.reverse]
  | c :: t, acc =>
    if isPySpace c then
      if acc = [] then pySplitAux t [] else acc.reverse :: pySplitAux t []
    else
      pySplitAux t (c :: acc)

/-- Python str.split() with no argument: split on whitespace runs, no empty words. -/
def pySplit (s : List Char) : List (List Char) :=
  pySplitAux s []

/-- Python " ".join(words): the words separated by single spaces. -/
def joinWS : List (List Char) → List Char
  | [] => []
  | w :: ws =>
    match ws with
    | [] => w
    | _ :: _ => w ++ ' ' :: joinWS ws

/-- Python " ".join(s.split()): collapse whitespace runs to single spaces. -/
def collapseWS (s : List Char) : List Char :=
  joinWS (pySplit s)

/-- No two adjacent whitespace characters (no run of more than one). -/
def noWSRun : List Char → Bool
  | a :: b :: t => !(isPySpace a && isPySpace b) && noWSRun (b :: t)
  | _ => true

/-- The first character, if any, is not whitespace. -/
def headNotWS : List Char → Bool
  | [] => true
  | c :: _ => !isPySpace c

/-- Every character is non-whitespace. -/
def allNonWS (l : List Char) : Bool :=
  l.all (fun c => !isPySpace c)

/-! ### The regex `<[^>]+>` (module-level _HTML_TAG_RE) -/

/-- Scan for the first closing angle bracket, returning the rest after it. -/
def tagScan : List Char → Option (List Char)
  | [] => none
  | c :: t => if c = '>' then some t else tagScan t

/-- Given the characters after an opening angle bracket, match `[^>]+>`:
at least one non-bracket character then the closing bracket; returns the
rest after the match. -/
def tagEnd : List Char → Option (List Char)
  | [] => none
  | c :: t => if c = '>' then none else tagScan t

/-- Left-to-right scan of `_HTML_TAG_RE.sub(" ", text)`, structured on a fuel
argument so that it computes by structural recursion; the fuel is always the
remaining length, which suffices since a replaced span consumes at least two
characters. -/
def subTagsGo : Nat → List Char → List Char
  | _, [] => []
  | 0, l => l
  | f + 1, c :: t =>
    if c = '<' then
      match tagEnd t with
      | some r => ' ' :: subTagsGo f r
      | none => c :: subTagsGo f t
    else
      c :: subTagsGo f t

/-- `_HTML_TAG_RE.sub(" ", text)`: replace every `<[^>]+>` span with one space,
scanning left to right. -/
def subTags (s : List Char) : List Char :=
  subTagsGo s.length s

/-- `_strip_html`: sub the tag regex with a space, then
`" ".join(clean.split()).strip()`. -/
def strip_html (s : List Char) : List Char :=
  pyStrip (collapseWS (subTags s))

/-! ### The regex `<b>Status:\s*(.+?)</b>` with IGNORECASE (_STATUS_RE) -/

/-- Case-insensitive character comparison (re.IGNORECASE). -/
def charCI (a b : Char) : Bool :=
  a.toLower = b.toLower

/-- Match a literal pattern case-insensitively at the head of the input,
returning the rest. -/
def stripPrefCI : List Char → List Char → Option (List Char)
  | [], s => some s
  | _ :: _, [] => none
  | p :: ps, c :: cs => if charCI p c then stripPrefCI ps cs else none

/-- The closing literal of the status marker. -/
def closeB : List Char := "</b>".data

/-- The opening literal of the status marker (compared case-insensitively). -/
def statusOpen : List Char := "<b>status:".data

/-- The non-greedy `(.+?)</b>` tail: at least one non-newline character,
extended minimally until the closing literal; returns the captured group
and the rest after the whole match. -/
def grabMin : List Char → Option (List Char × List Char)
  | [] => none
  | c :: rest =>
    if c = '\n' then none
    else
      match stripPrefCI closeB rest with
      | some r => some ([c], r)
      | none =>
        match grabMin rest with
        | some (g, r) => some (c :: g, r)
        | none => none

/-- Backtracking over the greedy `\s*`: try consuming k whitespace characters
first, then fewer, down to zero. -/
def tryWS : Nat → List Char → Option (List Char × List Char)
  | 0, s => grabMin s
  | k + 1, s =>
    match grabMin (s.drop (k + 1)) with
    | some gr => some gr
    | none => tryWS k s

/-- Attempt a full `_STATUS_RE` match at the head of the input: the literal
opening, greedy-backtracking whitespace, then the minimal group and closing
literal. Returns the captured group and the rest after the match. -/
def statusAt (s : List Char) : Option (List Char × List Char) :=
  match stripPrefCI statusOpen s with
  | some rest => tryWS ((rest.takeWhile (fun c => isPySpace c)).length) rest
  | none => none

/-- `_STATUS_RE.search`: the captured group of the leftmost match, if any. -/
def statusSearch : List Char → Option (List Char)
  | [] => none
  | c :: t =>
    match statusAt (c :: t) with
    | some (g, _) => some g
    | none => statusSearch t

/-- Left-to-right scan of `_STATUS_RE.sub("", text)`: delete every
non-overlapping match; fuel-structured, fuel = remaining length suffices
since a match consumes at least one character. -/
def statusSubGo : Nat → List Char → List Char
  | _, [] => []
  | 0, l => l
  | f + 1, c :: t =>
    match statusAt (c :: t) with
    | some (_, r) => statusSubGo f r
    | none => c :: statusSubGo f t

/-- `_STATUS_RE.sub("", text)`: delete every non-overlapping match,
scanning left to right. -/
def statusSubAll (s : List Char) : List Char :=
  statusSubGo s.length s

/-- `_parse_status`: the stripped text of the first status marker, or the
literal "Unknown" when the regex does not match. -/
def parse_status (h : List Char) : List Char :=
  match statusSearch h with
  | some g => pyStrip (strip_html g)
  | none => "Unknown".data

/-! ### The regex `<li>(.+?)</li>` with IGNORECASE and DOTALL (_COMPONENT_RE) -/

/-- The opening literal of a list item. -/
def openLi : List Char := "<li>".data

/-- The closing literal of a list item. -/
def closeLi : List Char := "</li>".data

/-- The non-greedy `(.+?)</li>` tail under DOTALL: at least one character of
any kind, extended minimally until the closing literal. -/
def liGrab : List Char → Option (List Char × List Char)
  | [] => none
  | c :: rest =>
    match stripPrefCI closeLi rest with
    | some r => some ([c], r)
    | none =>
      match liGrab rest with
      | some (g, r) => some (c :: g, r)
      | none => none

/-- `_COMPONENT_RE.finditer`: every captured group, left to right,
each search resuming after the previous match; fuel-structured. -/
def liFindGo : Nat → List Char → List (List Char)
  | _, [] => []
  | 0, _ => []
  | f + 1, c :: t =>
    match stripPrefCI openLi (c :: t) with
    | some rest =>
      match liGrab rest with
      | some (g, r) => g :: liFindGo f r
      | none => liFindGo f t
    | none => liFindGo f t

/-- All `<li>...</li>` captured groups of the input, in order. -/
def liFindAll (s : List Char) : List (List Char) :=
  liFindGo s.length s

/-! ### Data model (tracker/models.py) -/

/-- A single affected service/product component. -/
structure Component where
  name : String
  status : String
deriving DecidableEq

/-- One incident from a status page feed. The `updated` field holds the raw
timestamp text of the feed entry: `_safe_parse_datetime` is impure (it falls
back to the current UTC time), so the embedding keeps the string it was
given. -/
structure Incident where
  id : String
  title : String
  status : String
  updated : String
  link : String
  summary : String
  components : List Component
  provider : String
deriving DecidableEq

/-- `Incident.product_names`: comma-separated component names, or "N/A". -/
def Incident.product_names (i : Incident) : String :=
  if i.components = [] then "N/A"
  else String.intercalate ", " (i.components.map (fun c => c.name))

/-! ### The regex `^(.+?)\s*\(([^)]+)\)\s*$` (_COMPONENT_SPLIT_RE) -/

/-- Match `\s*\(([^)]+)\)\s*$` against the rest after the candidate name,
returning the parenthesized status. -/
def compTail (s : List Char) : Option (List Char) :=
  match s.dropWhile (fun c => isPySpace c) with
  | '(' :: rest =>
    let status := rest.takeWhile (fun c => c ≠ ')')
    match rest.dropWhile (fun c => c ≠ ')') with
    | ')' :: tail =>
      if status ≠ [] ∧ tail.all (fun c => isPySpace c) then some status else none
    | _ => none
  | _ => none

/-- Grow the non-greedy name one character at a time (name characters cannot
be newlines) until the parenthesized tail matches. -/
def compSplitGo : List Char → List Char → Option (List Char × List Char)
  | _, [] => none
  | name, c :: t =>
    match compTail (c :: t) with
    | some st => some (name, st)
    | none => if c = '\n' then none else compSplitGo (name ++ [c]) t

/-- `_COMPONENT_SPLIT_RE.match(raw)`: split a trailing parenthesized status
from the name, if the whole string matches. -/
def compSplit : List Char → Option (List Char × List Char)
  | [] => none
  | c :: t => if c = '\n' then none else compSplitGo [c] t

/-- `_parse_components` body: strip each captured group, skip empties and
exact duplicates, then split a trailing `(status)` from the name. -/
def buildComps : List (List Char) → List (List Char) → List Component
  | [], _ => []
  | raw0 :: rest, seen =>
    let raw := pyStrip (strip_html raw0)
    if raw = [] ∨ raw ∈ seen then buildComps rest seen
    else
      (match compSplit raw with
       | some (n, st) => Component.mk (String.mk (pyStrip n)) (String.mk (pyStrip st))
       | none => Component.mk (String.mk raw) "") :: buildComps rest (raw :: seen)

/-- `_parse_components`: affected components from the `<li>` items. -/
def parse_components (h : List Char) : List Component :=
  buildComps (liFindAll h) []

/-! ### `_parse_summary_text` -/

/-- Prefix test for substring search. -/
def isPrefList : List Char → List Char → Bool
  | [], _ => true
  | _ :: _, [] => false
  | a :: as, b :: bs => a = b && isPrefList as bs

/-- Python str.find: index of the first occurrence of the needle. -/
def findSub (needle : List Char) : List Char → Option Nat
  | [] => if needle = [] then some 0 else none
  | c :: t =>
    if isPrefList needle (c :: t) then some 0
    else (findSub needle t).map (fun n => n + 1)

/-- The lowercased affected-components marker searched for in the summary. -/
def affectedMarker : List Char := "<b>affected components</b>".data

/-- `_parse_summary_text`: remove all status markers, truncate at the
affected-components marker (located case-insensitively), then strip tags. -/
def parse_summary (h : List Char) : List Char :=
  let text := statusSubAll h
  let text2 :=
    match findSub affectedMarker (text.map Char.toLower) with
    | some idx => text.take idx
    | none => text
  pyStrip (strip_html text2)

/-! ### XML element model (xml.etree.ElementTree) -/

/-- A parsed XML element: tag (with resolved namespace), attributes, text,
children. `parse_atom_feed` and `parse_rss_feed` receive the root of an
already well-formed document; `ET.fromstring` raising on malformed input is
modelled at the monitor level by an absent parse result. -/
inductive XElem where
  | mk (tag : String) (attrs : List (String × String)) (text : Option String)
       (children : List XElem)

/-- The tag of an element. -/
def XElem.tag : XElem → String
  | .mk t _ _ _ => t

/-- The attributes of an element. -/
def XElem.attrs : XElem → List (String × String)
  | .mk _ a _ _ => a

/-- The text of an element. -/
def XElem.text : XElem → Option String
  | .mk _ _ tx _ => tx

/-- The children of an element. -/
def XElem.children : XElem → List XElem
  | .mk _ _ _ cs => cs

/-- `element.iter(tag)` over a forest: each element itself when its tag
matches, then its descendants, in document order. -/
def iterTagL (t : String) : List XElem → List XElem
  | [] => []
  | XElem.mk tg a tx cs :: rest =>
    (if tg = t then [XElem.mk tg a tx cs] else []) ++ iterTagL t cs ++ iterTagL t rest

/-- `element.find(tag)`: the first direct child with the given tag. -/
def XElem.findTag (e : XElem) (t : String) : Option XElem :=
  e.children.find? (fun c => c.tag == t)

/-- `_get_text`: the text of the child when the child exists and that text is
truthy (non-empty). -/
def getText (e : XElem) (t : String) : Option String :=
  match e.findTag t with
  | some c =>
    match c.text with
    | some s => if s = "" then none else some s
    | none => none
  | none => none

/-- `attrib.get(key, default)`. -/
def attrGet (attrs : List (String × String)) (k : String) (d : String) : String :=
  match attrs.find? (fun p => p.1 == k) with
  | some p => p.2
  | none => d

/-- The resolved ElementTree form of an Atom-namespace tag. -/
def atomNS (n : String) : String :=
  "\x7bhttp://www.w3.org/2005/Atom\x7d" ++ n

/-- Resolved tag of the RSS `content:encoded` extension element. -/
def contentEncodedTag : String :=
  "\x7bhttp://purl.org/rss/1.0/modules/content/\x7dencoded"

/-! ### Feed parsing (tracker/feed_parser.py public API) -/

/-- The `entry` elements iterated by `parse_atom_feed`: direct children of
the root with the namespaced `entry` tag, in document order. -/
def atomEntries (root : XElem) : List XElem :=
  root.children.filter (fun c => c.tag == atomNS "entry")

/-- The Incident built from one Atom `entry` element. -/
def atomIncident (provider : String) (e : XElem) : Incident :=
  let entryId := (getText e (atomNS "id")).getD ""
  let title := String.mk (strip_html ((getText e (atomNS "title")).getD "").data)
  let updatedStr := (getText e (atomNS "updated")).getD ""
  let content := (getText e (atomNS "content")).getD ""
  let summaryHtml :=
    match getText e (atomNS "summary") with
    | some s => s
    | none => content
  let link :=
    match e.findTag (atomNS "link") with
    | some le => attrGet le.attrs "href" ""
    | none => ""
  { id := entryId, title := title,
    status := String.mk (parse_status summaryHtml.data),
    updated := updatedStr, link := link,
    summary := String.mk (parse_summary summaryHtml.data),
    components := parse_components summaryHtml.data,
    provider := provider }

/-- `parse_atom_feed`: one Incident per `entry` element, document order. -/
def parse_atom_feed (root : XElem) (provider : String) : List Incident :=
  (atomEntries root).map (atomIncident provider)

/-- The `item` elements iterated by `parse_rss_feed` via `root.iter("item")`:
all descendants (root included) with tag `item`, in document order. -/
def rssItems (root : XElem) : List XElem :=
  iterTagL "item" [root]

/-- The Incident built from one RSS `item` element. -/
def rssIncident (provider : String) (item : XElem) : Incident :=
  let guid :=
    match getText item "guid" with
    | some s => s
    | none => (getText item "link").getD ""
  let title := String.mk (strip_html ((getText item "title").getD "").data)
  let link := (getText item "link").getD ""
  let pubDate := (getText item "pubDate").getD ""
  let description := (getText item "description").getD ""
  let contentEncoded :=
    match getText item contentEncodedTag with
    | some s => s
    | none => description
  { id := guid, title := title,
    status := String.mk (parse_status contentEncoded.data),
    updated := pubDate, link := link,
    summary := String.mk (parse_summary contentEncoded.data),
    components := parse_components contentEncoded.data,
    provider := provider }

/-- `parse_rss_feed`: one Incident per `item` element, document order. -/
def parse_rss_feed (root : XElem) (provider : String) : List Incident :=
  (rssItems root).map (rssIncident provider)

/-- `parse_feed`: dispatch on the lowercased feed type; anything other than
"rss" parses as Atom. -/
def parse_feed (root : XElem) (feed_type : String) (provider : String) : List Incident :=
  if feed_type.toLower = "rss" then parse_rss_feed root provider
  else parse_atom_feed root provider

/-! ### Monitor state and poll cycle (tracker/monitor.py) -/

/-- Global tracker settings (tracker/models.py TrackerSettings). The
base backoff is rational: Python computes the delay in exact int/float
arithmetic that these inputs keep exact. -/
structure TrackerSettings where
  log_level : String
  max_retries : Nat
  base_backoff : ℚ
  show_historical : Bool
  max_historical : Nat

/-- The per-provider mutable state of a FeedMonitor: the conditional HTTP
tokens, the body hash, the seen-ID set (as a list), the id→fingerprint map
(as an association list), the error counter and the first-run flag. -/
structure MonitorState where
  etag : Option String
  last_modified : Option String
  last_hash : Option String
  seen_ids : List String
  seen_updates : List (String × String)
  consecutive_errors : Nat
  first_run : Bool
deriving DecidableEq

/-- The state a FeedMonitor is constructed with. -/
def initialState : MonitorState :=
  { etag := none, last_modified := none, last_hash := none,
    seen_ids := [], seen_updates := [], consecutive_errors := 0, first_run := true }

/-- The notifier calls a poll cycle can make, in order. -/
inductive Event where
  | noChange
  | historicalHeader (n : Nat)
  | incidentOut (inc : Incident) (isNew : Bool)
  | separator
  | watching
deriving DecidableEq

/-- The environment of one poll cycle: a 304 response (whose cache headers
the code never reads), a fetch failure (non-2xx status raised by
raise_for_status, connection error or timeout — all before any mutation),
or a 2xx body with optional cache headers together with the outcome of
parse_feed on that body (none models the parser raising on malformed XML). -/
inductive PollInput where
  | notModified (etagH lastModH : Option String)
  | fetchError
  | got (body : String) (etagH lastModH : Option String)
        (parseRes : Option (List Incident))

/-- What one poll cycle produced: the new state, the notifier calls, how
often the global incident counter was incremented, whether parse_feed was
invoked, and whether the cycle completed without raising. -/
structure PollResult where
  state : MonitorState
  events : List Event
  counterInc : Nat
  parsed : Bool
  ok : Bool
deriving DecidableEq

/-- Python set.add on the list model. -/
def addSet (l : List String) (x : String) : List String :=
  if x ∈ l then l else l ++ [x]

/-- Python dict assignment on the association-list model. -/
def setAssoc : List (String × String) → String → String → List (String × String)
  | [], k, v => [(k, v)]
  | (k0, v0) :: rest, k, v =>
    if k0 = k then (k, v) :: rest else (k0, v0) :: setAssoc rest k v

/-- Python dict.get on the association-list model. -/
def lookupAssoc : List (String × String) → String → Option String
  | [], _ => none
  | (k0, v0) :: rest, k => if k0 = k then some v0 else lookupAssoc rest k

/-- Store the response cache headers when present (monitor.py lines 124-127):
an absent header keeps the prior token. -/
def applyHeaders (st : MonitorState) (etagH lastModH : Option String) : MonitorState :=
  { st with
    etag := match etagH with | some v => some v | none => st.etag,
    last_modified := match lastModH with | some v => some v | none => st.last_modified }

/-- One iteration of the first-run seeding loop (monitor.py lines 156-159). -/
def seedStep (fp : Incident → String) (st : MonitorState) (inc : Incident) : MonitorState :=
  { st with seen_ids := addSet st.seen_ids inc.id,
            seen_updates := setAssoc st.seen_updates inc.id (fp inc) }

/-- Seed the seen set and fingerprint map with all incidents, in order. -/
def seedAll (fp : Incident → String) (st : MonitorState) (incs : List Incident) : MonitorState :=
  incs.foldl (seedStep fp) st

/-- One iteration of the diff loop (monitor.py lines 164-180), carrying the
state, the emitted events and the counter increments. -/
def diffStep (fp : Incident → String) (acc : MonitorState × List Event × Nat)
    (inc : Incident) : MonitorState × List Event × Nat :=
  let st := acc.1
  let evs := acc.2.1
  let k := acc.2.2
  let ih := fp inc
  if inc.id ∉ st.seen_ids then
    ({ st with seen_ids := addSet st.seen_ids inc.id,
               seen_updates := setAssoc st.seen_updates inc.id ih },
     evs ++ [Event.separator, Event.incidentOut inc true], k + 1)
  else if lookupAssoc st.seen_updates inc.id ≠ some ih then
    ({ st with seen_updates := setAssoc st.seen_updates inc.id ih },
     evs ++ [Event.separator, Event.incidentOut inc false], k + 1)
  else acc

/-- The whole diff loop over the parsed incidents, in document order. -/
def diffAll (fp : Incident → String) (st : MonitorState) (incs : List Incident) :
    MonitorState × List Event × Nat :=
  incs.foldl (diffStep fp) (st, [], 0)

/-- `FeedMonitor._poll`, one cycle. `hashFn` stands for the SHA-256 content
hash and `fp` for `_incident_hash` (an MD5 of the fingerprint string); both
are opaque to the control flow and passed as parameters. -/
def pollStep (s : TrackerSettings) (hashFn : String → String) (fp : Incident → String)
    (st : MonitorState) (inp : PollInput) : PollResult :=
  match inp with
  | .notModified _ _ =>
    { state := st,
      events := if s.log_level = "DEBUG" then [Event.noChange] else [],
      counterInc := 0, parsed := false, ok := true }
  | .fetchError =>
    { state := st, events := [], counterInc := 0, parsed := false, ok := false }
  | .got body etagH lastModH parseRes =>
    let st1 := applyHeaders st etagH lastModH
    let h := hashFn body
    if st1.last_hash = some h then
      { state := st1,
        events := if s.log_level = "DEBUG" then [Event.noChange] else [],
        counterInc := 0, parsed := false, ok := true }
    else
      let st2 := { st1 with last_hash := some h }
      match parseRes with
      | none =>
        { state := st2, events := [], counterInc := 0, parsed := true, ok := false }
      | some incidents =>
        if incidents = [] then
          { state := st2, events := [], counterInc := 0, parsed := true, ok := true }
        else if st2.first_run then
          let st3 := { st2 with first_run := false }
          let histEvents :=
            if s.show_historical then
              let hist := incidents.take s.max_historical
              Event.historicalHeader hist.length ::
                hist.map (fun i => Event.incidentOut i false)
            else []
          { state := seedAll fp st3 incidents,
            events := histEvents ++ [Event.watching],
            counterInc := incidents.length, parsed := true, ok := true }
        else
          let r := diffAll fp st2 incidents
          { state := r.1, events := r.2.1, counterInc := r.2.2, parsed := true, ok := true }

/-- One turn of `FeedMonitor.start`: run the poll cycle, then reset the
error counter on success or increment it on failure. -/
def cycleStep (s : TrackerSettings) (hashFn : String → String) (fp : Incident → String)
    (st : MonitorState) (inp : PollInput) : PollResult :=
  let r := pollStep s hashFn fp st inp
  if r.ok then { r with state := { r.state with consecutive_errors := 0 } }
  else { r with state := { r.state with consecutive_errors := r.state.consecutive_errors + 1 } }

/-- The exact preimage string `_incident_hash` feeds to MD5. -/
def fingerprintString (i : Incident) : String :=
  i.status ++ "|" ++ i.summary ++ "|" ++ i.product_names

/-- Number of incident notifications in an event list. -/
def incidentEvents : List Event → Nat
  | [] => 0
  | Event.incidentOut _ _ :: t => incidentEvents t + 1
  | _ :: t => incidentEvents t

/-- Number of incident notifications flagged as new. -/
def newEvents : List Event → Nat
  | [] => 0
  | Event.incidentOut _ true :: t => newEvents t + 1
  | _ :: t => newEvents t

/-! ### Backoff controller (`FeedMonitor._backoff_delay`) -/

/-- `base_delay = base_backoff * 2 ** (exp - 1)` with
`exp = min(consecutive_errors, max_retries)`; the exponent is an integer,
so it can be -1 when both inputs are zero. -/
def backoff_base (s : TrackerSettings) (consecutiveErrors : Nat) : ℚ :=
  let e : Nat := min consecutiveErrors s.max_retries
  s.base_backoff * (2 : ℚ) ^ ((e : ℤ) - 1)

/-- `_backoff_delay` with the sampled jitter made explicit:
`min(base_delay + jitter, 300.0)` where the code draws
`jitter = random.uniform(0, base_delay * 0.5)`. -/
def backoff_delay (s : TrackerSettings) (consecutiveErrors : Nat) (jitter : ℚ) : ℚ :=
  min (backoff_base s consecutiveErrors + jitter) 300

/-! ### Concrete fixtures used by witnesses and counterexamples -/

/-- The default settings of models.py. -/
def sampleSettings : TrackerSettings :=
  { log_level := "INFO", max_retries := 5, base_backoff := 2,
    show_historical := true, max_historical := 10 }

/-- Default settings with historical display disabled. -/
def sampleSettingsNoHist : TrackerSettings :=
  { sampleSettings with show_historical := false }

/-- A stand-in content hash returning a fixed digest. -/
def constHash : String → String := fun _ => "H"

/-- A content hash echoing the body, usable where two digests must differ. -/
def echoHash : String → String := fun b => b

/-- A concrete incident. -/
def sampleIncident : Incident :=
  { id := "id-1", title := "API outage", status := "Investigating",
    updated := "2024-01-01T00:00:00Z", link := "https://status.example/1",
    summary := "Elevated errors", components := [], provider := "OpenAI" }

/-- A second concrete incident with a distinct id. -/
def sampleIncident2 : Incident :=
  { id := "id-2", title := "Degraded", status := "Monitoring",
    updated := "2024-01-02T00:00:00Z", link := "https://status.example/2",
    summary := "Watching", components := [], provider := "OpenAI" }

/-- A monitor state past its first run. -/
def seenState : MonitorState :=
  { initialState with first_run := false }

/-! ## Theorems -/

/-! Sanity checks: the embedded parser on concrete fragments of the feed
micro-format. -/

example : parse_status "<b>Status: Resolved</b>".data = "Resolved".data := by decide

example : parse_status "<B>status:  Partial outage</B> more".data = "Partial outage".data := by
  decide

example : parse_status "no marker here".data = "Unknown".data := by decide

example :
    parse_components "<ul><li>API (Operational)</li><li>API (Operational)</li><li>Chat</li></ul>".data
      = [Component.mk "API" "Operational", Component.mk "Chat" ""] := by decide

example :
    parse_summary "<p>All good now.</p><b>Affected components</b><ul><li>API</li></ul>".data
      = "All good now.".data := by decide

example :
    parse_summary "<b>Status: Resolved</b><p>Fixed.</p>".data = "Fixed.".data := by decide

/-- C1 (counterexample): the claim says a cycle that fails before diffing
leaves etag, last_modified and last_body_hash unchanged. A cycle that
fetches a 2xx body with an ETag header and then fails in parse_feed is a
failed cycle, yet it has already stored the new etag, last-modified token
and body hash. -/
theorem cycle_parse_error_mutates_tokens_cex :
    (cycleStep sampleSettings constHash fingerprintString initialState
        (PollInput.got "x" (some "E") (some "L") none)).ok = false ∧
    (cycleStep sampleSettings constHash fingerprintString initialState
        (PollInput.got "x" (some "E") (some "L") none)).state.etag = some "E" ∧
    (cycleStep sampleSettings constHash fingerprintString initialState
        (PollInput.got "x" (some "E") (some "L") none)).state.last_modified = some "L" ∧
    (cycleStep sampleSettings constHash fingerprintString initialState
        (PollInput.got "x" (some "E") (some "L") none)).state.last_hash = some "H" ∧
    initialState.etag = none ∧ initialState.last_modified = none ∧
    initialState.last_hash = none := by
  decide

/-- C1 (amended): a failed cycle never touches the seen-ID set, the
fingerprint map or the first-run flag, and increments the error counter by
one; a failure at the fetch itself (non-2xx, connection error, timeout, all
before any header is read) additionally leaves every other field unchanged.
However, a cycle that fails in the parser may already have refreshed the
cache tokens and the body hash. -/
theorem cycle_failure_frame (s : TrackerSettings) (hashFn : String → String)
    (fp : Incident → String) (st : MonitorState) (inp : PollInput)
    (h : (cycleStep s hashFn fp st inp).ok = false) :
    (cycleStep s hashFn fp st inp).state.seen_ids = st.seen_ids ∧
    (cycleStep s hashFn fp st inp).state.seen_updates = st.seen_updates ∧
    (cycleStep s hashFn fp st inp).state.first_run = st.first_run ∧
    (cycleStep s hashFn fp st inp).state.consecutive_errors = st.consecutive_errors + 1 ∧
    (inp = PollInput.fetchError →
      (cycleStep s hashFn fp st inp).state
        = { st with consecutive_errors := st.consecutive_errors + 1 }) := by
  cases inp with
  | notModified eH lH => simp [cycleStep, pollStep] at h
  | fetchError => simp [cycleStep, pollStep]
  | got body eH lH pr =>
    by_cases hh : st.last_hash = some (hashFn body)
    · simp [cycleStep, pollStep, applyHeaders, hh] at h
    · cases pr with
      | none =>
        refine ⟨?_, ?_, ?_, ?_, ?_⟩ <;>
          simp [cycleStep, pollStep, applyHeaders, hh]
      | some incs =>
        by_cases he : incs = [] <;>
          by_cases hf : st.first_run <;>
            simp [cycleStep, pollStep, applyHeaders, hh, he, hf] at h

/-- C1 (witness): the amended frame property at a concrete fetch failure. -/
theorem cycle_failure_frame_witness :
    (cycleStep sampleSettings constHash fingerprintString seenState
        PollInput.fetchError).state.seen_ids = seenState.seen_ids ∧
    (cycleStep sampleSettings constHash fingerprintString seenState
        PollInput.fetchError).state.consecutive_errors = seenState.consecutive_errors + 1 :=
  ⟨(cycle_failure_frame sampleSettings constHash fingerprintString seenState
      PollInput.fetchError (by decide)).1,
   (cycle_failure_frame sampleSettings constHash fingerprintString seenState
      PollInput.fetchError (by decide)).2.2.2.1⟩

/-- C4 (counterexample): the claim says cache tokens are refreshed on a 304
response. On a 304 the code returns before reading any header: with fresh
tokens in the response, the stored tokens stay what they were. -/
theorem not_modified_keeps_tokens_cex :
    (pollStep sampleSettings constHash fingerprintString
        { initialState with etag := some "old", last_modified := some "lm-old" }
        (PollInput.notModified (some "new") (some "lm-new"))).ok = true ∧
    (pollStep sampleSettings constHash fingerprintString
        { initialState with etag := some "old", last_modified := some "lm-old" }
        (PollInput.notModified (some "new") (some "lm-new"))).state.etag = some "old" ∧
    (pollStep sampleSettings constHash fingerprintString
        { initialState with etag := some "old", last_modified := some "lm-old" }
        (PollInput.notModified (some "new") (some "lm-new"))).state.last_modified
      = some "lm-old" := by
  decide

/-- C4 (amended): a 304 response yields zero parses, zero incident
emissions, zero counter increments and no MonitorState change at all — the
cache headers of the response are ignored and the prior tokens kept. An
unchanged content hash also yields zero parses, zero emissions and zero
counter increments, and changes nothing except the cache tokens, which are
refreshed from the headers of the 2xx response (absent headers keep the prior
tokens). -/
theorem no_change_frame (s : TrackerSettings) (hashFn : String → String)
    (fp : Incident → String) (st : MonitorState) :
    (∀ eH lH,
      (pollStep s hashFn fp st (PollInput.notModified eH lH)).state = st ∧
      (pollStep s hashFn fp st (PollInput.notModified eH lH)).parsed = false ∧
      incidentEvents (pollStep s hashFn fp st (PollInput.notModified eH lH)).events = 0 ∧
      (pollStep s hashFn fp st (PollInput.notModified eH lH)).counterInc = 0) ∧
    (∀ body eH lH pr, st.last_hash = some (hashFn body) →
      (pollStep s hashFn fp st (PollInput.got body eH lH pr)).state
        = applyHeaders st eH lH ∧
      (pollStep s hashFn fp st (PollInput.got body eH lH pr)).state.last_hash
        = st.last_hash ∧
      (pollStep s hashFn fp st (PollInput.got body eH lH pr)).state.seen_ids
        = st.seen_ids ∧
      (pollStep s hashFn fp st (PollInput.got body eH lH pr)).state.seen_updates
        = st.seen_updates ∧
      (pollStep s hashFn fp st (PollInput.got body eH lH pr)).state.first_run
        = st.first_run ∧
      (pollStep s hashFn fp st (PollInput.got body eH lH pr)).parsed = false ∧
      incidentEvents (pollStep s hashFn fp st (PollInput.got body eH lH pr)).events = 0 ∧
      (pollStep s hashFn fp st (PollInput.got body eH lH pr)).counterInc = 0) := by
  constructor
  · intro eH lH
    by_cases hd : s.log_level = "DEBUG" <;>
      simp [pollStep, hd, incidentEvents]
  · intro body eH lH pr hh
    have hh1 : (applyHeaders st eH lH).last_hash = some (hashFn body) := by
      simp [applyHeaders, hh]
    by_cases hd : s.log_level = "DEBUG" <;>
      simp [pollStep, hh1, hd, incidentEvents, applyHeaders, hh]

/-- C4 (witness): the amended frame property at a concrete unchanged-hash
cycle. -/
theorem no_change_frame_witness :
    (pollStep sampleSettings constHash fingerprintString
        { seenState with last_hash := some "H" }
        (PollInput.got "b" (some "E2") none (some [sampleIncident]))).parsed = false ∧
    (pollStep sampleSettings constHash fingerprintString
        { seenState with last_hash := some "H" }
        (PollInput.got "b" (some "E2") none (some [sampleIncident]))).state.etag
      = some "E2" :=
  ⟨((no_change_frame sampleSettings constHash fingerprintString
      { seenState with last_hash := some "H" }).2 "b" (some "E2") none
      (some [sampleIncident]) (by decide)).2.2.2.2.2.1,
   by
    have h := ((no_change_frame sampleSettings constHash fingerprintString
      { seenState with last_hash := some "H" }).2 "b" (some "E2") none
      (some [sampleIncident]) (by decide)).1
    rw [h]
    decide⟩

/-! Helper lemmas about events, the diff fold and the seeding fold. -/

theorem incidentEvents_append (a b : List Event) :
    incidentEvents (a ++ b) = incidentEvents a + incidentEvents b := by
  induction a with
  | nil => simp [incidentEvents]
  | cons e t ih =>
    cases e <;> simp [incidentEvents, ih] <;> omega

theorem newEvents_append (a b : List Event) :
    newEvents (a ++ b) = newEvents a + newEvents b := by
  induction a with
  | nil => simp [newEvents]
  | cons e t ih =>
    cases e with
    | noChange => simp [newEvents, ih]
    | historicalHeader n => simp [newEvents, ih]
    | incidentOut i bb => cases bb <;> simp [newEvents, ih] <;> omega
    | separator => simp [newEvents, ih]
    | watching => simp [newEvents, ih]

theorem incidentEvents_hist (l : List Incident) :
    incidentEvents (l.map (fun i => Event.incidentOut i false)) = l.length := by
  induction l with
  | nil => simp [incidentEvents]
  | cons i t ih => simp [incidentEvents, ih]

theorem newEvents_hist (l : List Incident) :
    newEvents (l.map (fun i => Event.incidentOut i false)) = 0 := by
  induction l with
  | nil => simp [newEvents]
  | cons i t ih => simp [newEvents, ih]

theorem incidentEvents_take_hist (n : Nat) (l : List Incident) :
    incidentEvents (List.take n (l.map (fun i => Event.incidentOut i false)))
      = min n l.length := by
  rw [← List.map_take, incidentEvents_hist, List.length_take]

theorem newEvents_take_hist (n : Nat) (l : List Incident) :
    newEvents (List.take n (l.map (fun i => Event.incidentOut i false))) = 0 := by
  rw [← List.map_take, newEvents_hist]

theorem diffStep_counter (fp : Incident → String) (acc : MonitorState × List Event × Nat)
    (i : Incident) :
    (diffStep fp acc i).2.2 + incidentEvents acc.2.1
      = incidentEvents (diffStep fp acc i).2.1 + acc.2.2 := by
  obtain ⟨st, evs, k⟩ := acc
  by_cases h1 : i.id ∈ st.seen_ids
  · by_cases h2 : lookupAssoc st.seen_updates i.id = some (fp i)
    · simp [diffStep, h1, h2]
      omega
    · simp [diffStep, h1, h2, incidentEvents_append, incidentEvents]
      omega
  · simp [diffStep, h1, incidentEvents_append, incidentEvents]
    omega

theorem diffFold_counter (fp : Incident → String) :
    ∀ (incs : List Incident) (acc : MonitorState × List Event × Nat),
      (List.foldl (diffStep fp) acc incs).2.2 + incidentEvents acc.2.1
        = incidentEvents (List.foldl (diffStep fp) acc incs).2.1 + acc.2.2 := by
  intro incs
  induction incs with
  | nil => intro acc; simp [List.foldl_nil]; omega
  | cons i t ih =>
    intro acc
    simp only [List.foldl_cons]
    have h1 := diffStep_counter fp acc i
    have h2 := ih (diffStep fp acc i)
    omega

theorem addSet_mem_self (l : List String) (x : String) : x ∈ addSet l x := by
  unfold addSet
  by_cases hx : x ∈ l <;> simp [hx]

theorem addSet_mem_of (l : List String) (x y : String) (h : y ∈ l) : y ∈ addSet l x := by
  unfold addSet
  by_cases hx : x ∈ l <;> simp [hx, h]

theorem lookupAssoc_setAssoc_self :
    ∀ (m : List (String × String)) (k v : String),
      lookupAssoc (setAssoc m k v) k = some v := by
  intro m
  induction m with
  | nil => intro k v; simp [setAssoc, lookupAssoc]
  | cons p rest ih =>
    intro k v
    obtain ⟨k0, v0⟩ := p
    by_cases hk : k0 = k <;> simp [setAssoc, lookupAssoc, hk, ih]

theorem lookupAssoc_setAssoc_isSome :
    ∀ (m : List (String × String)) (k v k0 : String),
      (lookupAssoc m k0).isSome = true →
      (lookupAssoc (setAssoc m k v) k0).isSome = true := by
  intro m
  induction m with
  | nil => intro k v k0 h; simp [lookupAssoc] at h
  | cons p rest ih =>
    intro k v k0 h
    obtain ⟨k1, v1⟩ := p
    by_cases hk : k1 = k
    · subst hk
      by_cases h0 : k1 = k0
      · subst h0
        simp [setAssoc, lookupAssoc]
      · simp [setAssoc, lookupAssoc, h0] at h ⊢
        exact h
    · by_cases h0 : k1 = k0
      · subst h0
        simp [setAssoc, lookupAssoc, hk]
      · simp [setAssoc, lookupAssoc, hk, h0] at h ⊢
        exact ih k v k0 h

theorem seedAll_preserves_mem (fp : Incident → String) :
    ∀ (t : List Incident) (st : MonitorState) (x : String),
      x ∈ st.seen_ids → x ∈ (seedAll fp st t).seen_ids := by
  intro t
  induction t with
  | nil => intro st x h; simpa [seedAll] using h
  | cons j rest ih =>
    intro st x h
    simp only [seedAll, List.foldl_cons]
    exact ih _ x (addSet_mem_of _ _ _ h)

theorem seedAll_preserves_lookup (fp : Incident → String) :
    ∀ (t : List Incident) (st : MonitorState) (x : String),
      (lookupAssoc st.seen_updates x).isSome = true →
      (lookupAssoc (seedAll fp st t).seen_updates x).isSome = true := by
  intro t
  induction t with
  | nil => intro st x h; simpa [seedAll] using h
  | cons j rest ih =>
    intro st x h
    simp only [seedAll, List.foldl_cons]
    exact ih _ x (lookupAssoc_setAssoc_isSome _ _ _ _ h)

theorem seedAll_covers (fp : Incident → String) :
    ∀ (incs : List Incident) (st : MonitorState) (i : Incident), i ∈ incs →
      i.id ∈ (seedAll fp st incs).seen_ids ∧
      (lookupAssoc (seedAll fp st incs).seen_updates i.id).isSome = true := by
  intro incs
  induction incs with
  | nil => intro st i h; simp at h
  | cons j t ih =>
    intro st i h
    rcases List.mem_cons.mp h with h | h
    · subst h
      constructor
      · exact seedAll_preserves_mem fp t _ _ (addSet_mem_self _ _)
      · refine seedAll_preserves_lookup fp t _ _ ?_
        simp [seedStep, lookupAssoc_setAssoc_self]
    · exact ih _ i h

theorem seedAll_fields (fp : Incident → String) :
    ∀ (incs : List Incident) (st : MonitorState),
      (seedAll fp st incs).etag = st.etag ∧
      (seedAll fp st incs).last_modified = st.last_modified ∧
      (seedAll fp st incs).last_hash = st.last_hash ∧
      (seedAll fp st incs).consecutive_errors = st.consecutive_errors ∧
      (seedAll fp st incs).first_run = st.first_run := by
  intro incs
  induction incs with
  | nil => intro st; simp [seedAll]
  | cons j t ih =>
    intro st
    simp only [seedAll, List.foldl_cons]
    simpa [seedStep] using ih { st with
      seen_ids := addSet st.seen_ids j.id,
      seen_updates := setAssoc st.seen_updates j.id (fp j) }

/-- C2 (counterexample): the claim says the global tracked-incident counter
is incremented only per emitted new/updated event, and not for incidents
merely seeded without emission. A first successful cycle with historical
display disabled emits no incident notification yet increments the counter
once per seeded incident. -/
theorem counter_seeding_cex :
    (pollStep sampleSettingsNoHist constHash fingerprintString initialState
        (PollInput.got "b" none none (some [sampleIncident]))).counterInc = 1 ∧
    incidentEvents (pollStep sampleSettingsNoHist constHash fingerprintString initialState
        (PollInput.got "b" none none (some [sampleIncident]))).events = 0 := by
  decide

/-- C2 (amended): in every non-first cycle the counter increments exactly
once per emitted incident notification; in the first successful non-empty
cycle it increments once per parsed (seeded) incident — including the
incidents beyond the displayed historical subset — while the emitted
incident notifications are only the displayed subset (none when historical
display is off). -/
theorem counter_per_emission (s : TrackerSettings) (hashFn : String → String)
    (fp : Incident → String) (st : MonitorState) (body : String)
    (eH lH : Option String) (incs : List Incident) :
    (st.first_run = false →
      (pollStep s hashFn fp st (PollInput.got body eH lH (some incs))).counterInc
        = incidentEvents
            (pollStep s hashFn fp st (PollInput.got body eH lH (some incs))).events) ∧
    (st.first_run = true → incs ≠ [] → st.last_hash ≠ some (hashFn body) →
      (pollStep s hashFn fp st (PollInput.got body eH lH (some incs))).counterInc
        = incs.length ∧
      incidentEvents
          (pollStep s hashFn fp st (PollInput.got body eH lH (some incs))).events
        = (if s.show_historical then (incs.take s.max_historical).length else 0)) := by
  constructor
  · intro hfr
    by_cases hh : st.last_hash = some (hashFn body)
    · by_cases hd : s.log_level = "DEBUG" <;>
        simp [pollStep, applyHeaders, hh, hd, incidentEvents]
    · by_cases he : incs = []
      · simp [pollStep, applyHeaders, hh, he, incidentEvents]
      · have hc := diffFold_counter fp incs
          ({ applyHeaders st eH lH with last_hash := some (hashFn body) }, [], 0)
        simp only [incidentEvents] at hc
        simp [pollStep, applyHeaders, hh, he, hfr, diffAll]
        simp [applyHeaders, hfr] at hc
        omega
  · intro hfr hne hh
    constructor
    · simp [pollStep, applyHeaders, hh, hne, hfr]
    · by_cases hs : s.show_historical <;>
        simp [pollStep, applyHeaders, hh, hne, hfr, hs, incidentEvents_append,
          incidentEvents, incidentEvents_hist, incidentEvents_take_hist, List.length_take]

/-- C2 (witness): the amended counter law at a concrete non-first cycle
with one new incident. -/
theorem counter_per_emission_witness :
    (pollStep sampleSettings constHash fingerprintString seenState
        (PollInput.got "b" none none (some [sampleIncident]))).counterInc
      = incidentEvents (pollStep sampleSettings constHash fingerprintString seenState
          (PollInput.got "b" none none (some [sampleIncident]))).events :=
  (counter_per_emission sampleSettings constHash fingerprintString seenState "b"
      none none [sampleIncident]).1 (by decide)

/-- C3 (counterexample): the claim says the first successful cycle clears
first_run regardless of incident count. A successful first cycle whose
document parses to an empty list returns before the first-run branch:
first_run stays true. -/
theorem first_run_empty_list_cex :
    (pollStep sampleSettings constHash fingerprintString initialState
        (PollInput.got "b" none none (some []))).ok = true ∧
    (pollStep sampleSettings constHash fingerprintString initialState
        (PollInput.got "b" none none (some []))).state.first_run = true := by
  decide

/-- C3 (amended): in the first successful cycle whose parsed incident list
is non-empty, no new/update notification is emitted; the emitted events are
exactly the historical display capped at max_historical (plus the watching
banner), the id of every parsed incident is seeded into the seen set and the
fingerprint map, and first_run is cleared. -/
theorem first_run_seeds_all (s : TrackerSettings) (hashFn : String → String)
    (fp : Incident → String) (st : MonitorState) (body : String)
    (eH lH : Option String) (incs : List Incident)
    (hfr : st.first_run = true) (hne : incs ≠ [])
    (hh : st.last_hash ≠ some (hashFn body)) :
    (pollStep s hashFn fp st (PollInput.got body eH lH (some incs))).state.first_run
      = false ∧
    newEvents (pollStep s hashFn fp st (PollInput.got body eH lH (some incs))).events
      = 0 ∧
    (pollStep s hashFn fp st (PollInput.got body eH lH (some incs))).events
      = (if s.show_historical then
          Event.historicalHeader (incs.take s.max_historical).length ::
            (incs.take s.max_historical).map (fun i => Event.incidentOut i false)
        else []) ++ [Event.watching] ∧
    (∀ i ∈ incs,
      i.id ∈ (pollStep s hashFn fp st (PollInput.got body eH lH (some incs))).state.seen_ids ∧
      (lookupAssoc (pollStep s hashFn fp st
          (PollInput.got body eH lH (some incs))).state.seen_updates i.id).isSome = true) := by
  refine ⟨?_, ?_, ?_, ?_⟩
  · simp [pollStep, applyHeaders, hh, hne, hfr]
    exact (seedAll_fields fp incs _).2.2.2.2
  · by_cases hs : s.show_historical <;>
      simp [pollStep, applyHeaders, hh, hne, hfr, hs, newEvents_append, newEvents,
        newEvents_hist, newEvents_take_hist]
  · by_cases hs : s.show_historical <;>
      simp [pollStep, applyHeaders, hh, hne, hfr, hs]
  · intro i hi
    simpa [pollStep, applyHeaders, hh, hne, hfr] using
      seedAll_covers fp incs _ i hi

/-- C3 (witness): the amended first-run behaviour at a concrete two-incident
first cycle. -/
theorem first_run_seeds_all_witness :
    (pollStep sampleSettings constHash fingerprintString initialState
        (PollInput.got "b" none none (some [sampleIncident, sampleIncident2]))).state.first_run
      = false ∧
    newEvents (pollStep sampleSettings constHash fingerprintString initialState
        (PollInput.got "b" none none (some [sampleIncident, sampleIncident2]))).events = 0 :=
  ⟨(first_run_seeds_all sampleSettings constHash fingerprintString initialState "b"
      none none [sampleIncident, sampleIncident2] (by decide) (by decide) (by decide)).1,
   (first_run_seeds_all sampleSettings constHash fingerprintString initialState "b"
      none none [sampleIncident, sampleIncident2] (by decide) (by decide) (by decide)).2.1⟩

/-- C5: in a non-first cycle that reaches the diff, the result is the
in-document-order fold of the per-incident step, and that step classifies
each incident exactly as claimed: an unseen id emits one "new" notification,
is added to the seen set and has its fingerprint stored; a seen id with a
differing stored fingerprint emits one "updated" notification and has the
fingerprint overwritten; a seen id with an equal fingerprint emits nothing
and changes nothing. -/
theorem diff_classification (s : TrackerSettings) (hashFn : String → String)
    (fp : Incident → String) (st : MonitorState) (body : String)
    (eH lH : Option String) (incs : List Incident)
    (hfr : st.first_run = false) (hne : incs ≠ [])
    (hh : st.last_hash ≠ some (hashFn body)) :
    ((pollStep s hashFn fp st (PollInput.got body eH lH (some incs))).state
        = (diffAll fp { (applyHeaders st eH lH) with
            last_hash := some (hashFn body) } incs).1 ∧
      (pollStep s hashFn fp st (PollInput.got body eH lH (some incs))).events
        = (diffAll fp { (applyHeaders st eH lH) with
            last_hash := some (hashFn body) } incs).2.1 ∧
      (pollStep s hashFn fp st (PollInput.got body eH lH (some incs))).counterInc
        = (diffAll fp { (applyHeaders st eH lH) with
            last_hash := some (hashFn body) } incs).2.2) ∧
    (∀ (acc : MonitorState × List Event × Nat) (inc : Incident),
      (inc.id ∉ acc.1.seen_ids →
        diffStep fp acc inc
          = ({ acc.1 with
                seen_ids := addSet acc.1.seen_ids inc.id,
                seen_updates := setAssoc acc.1.seen_updates inc.id (fp inc) },
             acc.2.1 ++ [Event.separator, Event.incidentOut inc true], acc.2.2 + 1)) ∧
      (inc.id ∈ acc.1.seen_ids → lookupAssoc acc.1.seen_updates inc.id ≠ some (fp inc) →
        diffStep fp acc inc
          = ({ acc.1 with seen_updates := setAssoc acc.1.seen_updates inc.id (fp inc) },
             acc.2.1 ++ [Event.separator, Event.incidentOut inc false], acc.2.2 + 1)) ∧
      (inc.id ∈ acc.1.seen_ids → lookupAssoc acc.1.seen_updates inc.id = some (fp inc) →
        diffStep fp acc inc = acc)) := by
  constructor
  · refine ⟨?_, ?_, ?_⟩ <;>
      simp [pollStep, applyHeaders, hh, hne, hfr, diffAll]
  · intro acc inc
    obtain ⟨st0, evs, k⟩ := acc
    refine ⟨?_, ?_, ?_⟩
    · intro h1
      simp [diffStep, h1]
    · intro h1 h2
      simp [diffStep, h1, h2]
    · intro h1 h2
      simp [diffStep, h1, h2]

/-- C5 (witness): the classification at a concrete unseen incident. -/
theorem diff_classification_witness :
    diffStep fingerprintString (seenState, [], 0) sampleIncident
      = ({ seenState with
            seen_ids := addSet seenState.seen_ids sampleIncident.id,
            seen_updates := setAssoc seenState.seen_updates sampleIncident.id
              (fingerprintString sampleIncident) },
         [Event.separator, Event.incidentOut sampleIncident true], 1) :=
  ((diff_classification sampleSettings constHash fingerprintString seenState "b"
      none none [sampleIncident] (by decide) (by decide) (by decide)).2
    (seenState, [], 0) sampleIncident).1 (by decide)

/-- C10: a successful cycle whose document parses to an empty list ends
before the first-run branch — first_run stays true and nothing is displayed
— although the body hash and the cache tokens of that cycle are already
stored; the next cycle whose (differently hashed) document parses
non-empty is then treated as the first run: it seeds every incident and
emits no "new" notification. -/
theorem empty_parse_defers_first_run (s : TrackerSettings) (hashFn : String → String)
    (fp : Incident → String) (st : MonitorState) (body1 body2 : String)
    (e1 l1 e2 l2 : Option String) (incs : List Incident)
    (hfr : st.first_run = true)
    (hh1 : st.last_hash ≠ some (hashFn body1))
    (hne : incs ≠ [])
    (hh2 : hashFn body2 ≠ hashFn body1) :
    (pollStep s hashFn fp st (PollInput.got body1 e1 l1 (some []))).ok = true ∧
    (pollStep s hashFn fp st (PollInput.got body1 e1 l1 (some []))).events = [] ∧
    (pollStep s hashFn fp st (PollInput.got body1 e1 l1 (some []))).state.first_run
      = true ∧
    (pollStep s hashFn fp st (PollInput.got body1 e1 l1 (some []))).state.last_hash
      = some (hashFn body1) ∧
    (pollStep s hashFn fp st (PollInput.got body1 e1 l1 (some []))).state.etag
      = (applyHeaders st e1 l1).etag ∧
    (pollStep s hashFn fp st (PollInput.got body1 e1 l1 (some []))).state.last_modified
      = (applyHeaders st e1 l1).last_modified ∧
    (pollStep s hashFn fp
        (pollStep s hashFn fp st (PollInput.got body1 e1 l1 (some []))).state
        (PollInput.got body2 e2 l2 (some incs))).state.first_run = false ∧
    newEvents (pollStep s hashFn fp
        (pollStep s hashFn fp st (PollInput.got body1 e1 l1 (some []))).state
        (PollInput.got body2 e2 l2 (some incs))).events = 0 ∧
    (∀ i ∈ incs, i.id ∈ (pollStep s hashFn fp
        (pollStep s hashFn fp st (PollInput.got body1 e1 l1 (some []))).state
        (PollInput.got body2 e2 l2 (some incs))).state.seen_ids) := by
  have hh2s : ¬ (hashFn body1 = hashFn body2) := fun h => hh2 h.symm
  refine ⟨?_, ?_, ?_, ?_, ?_, ?_, ?_, ?_, ?_⟩
  · simp [pollStep, applyHeaders, hh1]
  · simp [pollStep, applyHeaders, hh1]
  · simp [pollStep, applyHeaders, hh1, hfr]
  · simp [pollStep, applyHeaders, hh1]
  · simp [pollStep, applyHeaders, hh1]
  · simp [pollStep, applyHeaders, hh1]
  · simp [pollStep, applyHeaders, hh1, hfr, hne, hh2s]
    exact (seedAll_fields fp incs _).2.2.2.2
  · by_cases hs : s.show_historical <;>
      simp [pollStep, applyHeaders, hh1, hfr, hne, hh2s, hs, newEvents_append,
        newEvents, newEvents_hist, newEvents_take_hist]
  · intro i hi
    simpa [pollStep, applyHeaders, hh1, hfr, hne, hh2s] using
      (seedAll_covers fp incs _ i hi).1

/-- C10 (witness): the deferred first run at a concrete pair of cycles. -/
theorem empty_parse_defers_first_run_witness :
    (pollStep sampleSettings echoHash fingerprintString initialState
        (PollInput.got "empty" none none (some []))).state.first_run = true ∧
    (pollStep sampleSettings echoHash fingerprintString
        (pollStep sampleSettings echoHash fingerprintString initialState
          (PollInput.got "empty" none none (some []))).state
        (PollInput.got "full" none none (some [sampleIncident]))).state.first_run
      = false :=
  ⟨(empty_parse_defers_first_run sampleSettings echoHash fingerprintString initialState
      "empty" "full" none none none none [sampleIncident] (by decide) (by decide)
      (by decide) (by decide)).2.2.1,
   (empty_parse_defers_first_run sampleSettings echoHash fingerprintString initialState
      "empty" "full" none none none none [sampleIncident] (by decide) (by decide)
      (by decide) (by decide)).2.2.2.2.2.2.1⟩

/-- C6: for one or more consecutive errors, the computed delay is
min(base + jitter, 300) with exp = min(consecutive_errors, max_retries) and
base = base_backoff * 2^(exp - 1); with the sampled jitter in
[0, base / 2] the pre-cap delay lies in [base, 1.5 * base], the delay never
exceeds 300, and for a fixed jitter fraction the delay is non-decreasing in
the number of consecutive errors (constant past the max_retries cap). -/
theorem backoff_properties (s : TrackerSettings) (n : Nat) (jitter : ℚ)
    (hn : 1 ≤ n) (hb : 0 ≤ s.base_backoff)
    (hj0 : 0 ≤ jitter) (hj1 : jitter ≤ backoff_base s n / 2) :
    backoff_delay s n jitter = min (backoff_base s n + jitter) 300 ∧
    backoff_base s n ≤ backoff_base s n + jitter ∧
    backoff_base s n + jitter ≤ 3 / 2 * backoff_base s n ∧
    backoff_delay s n jitter ≤ 300 ∧
    (∀ (m : Nat) (t : ℚ), n ≤ m → 0 ≤ t → t ≤ 1 / 2 →
      backoff_delay s n (t * backoff_base s n)
        ≤ backoff_delay s m (t * backoff_base s m)) := by
  refine ⟨rfl, le_add_of_nonneg_right hj0, by linarith, min_le_right _ _, ?_⟩
  intro m t hnm ht0 _
  have hmin : min n s.max_retries ≤ min m s.max_retries :=
    min_le_min hnm le_rfl
  have hz : (((min n s.max_retries : ℕ) : ℤ) - 1) ≤ (((min m s.max_retries : ℕ) : ℤ) - 1) := by
    have h0 : (((min n s.max_retries : ℕ) : ℤ)) ≤ (((min m s.max_retries : ℕ) : ℤ)) := by
      exact_mod_cast hmin
    omega
  have hbase : backoff_base s n ≤ backoff_base s m := by
    unfold backoff_base
    exact mul_le_mul_of_nonneg_left (zpow_le_zpow_right₀ one_le_two hz) hb
  have hadd : backoff_base s n + t * backoff_base s n
      ≤ backoff_base s m + t * backoff_base s m :=
    add_le_add hbase (mul_le_mul_of_nonneg_left hbase ht0)
  exact min_le_min hadd le_rfl

/-- C6 (witness): the backoff law at three consecutive errors with the
default settings and jitter 1. -/
theorem backoff_properties_witness :
    ((1 : Nat) ≤ 3 ∧ (0 : ℚ) ≤ sampleSettings.base_backoff ∧ (0 : ℚ) ≤ 1 ∧
      (1 : ℚ) ≤ backoff_base sampleSettings 3 / 2) ∧
    backoff_delay sampleSettings 3 1 ≤ 300 :=
  ⟨⟨by norm_num, by norm_num [sampleSettings], by norm_num,
    by norm_num [backoff_base, sampleSettings]⟩,
   (backoff_properties sampleSettings 3 1 (by norm_num)
      (by norm_num [sampleSettings]) (by norm_num)
      (by norm_num [backoff_base, sampleSettings])).2.2.2.1⟩

/-- C7 (counterexample): the claim says the extraction returns "Unknown"
if and only if no status marker is present, and is never empty. A marker
whose text is literally "Unknown" yields "Unknown" with a marker present,
and a marker whose text strips to nothing yields the empty string. -/
theorem status_unknown_iff_cex :
    (statusSearch "<b>Status: Unknown</b>".data).isSome = true ∧
    parse_status "<b>Status: Unknown</b>".data = "Unknown".data ∧
    (statusSearch "<b>Status: <i></b>".data).isSome = true ∧
    parse_status "<b>Status: <i></b>".data = [] := by
  decide

/-- C7 (amended): the extraction is total; it returns the literal "Unknown"
when no status marker matches, and otherwise the tag-stripped,
whitespace-collapsed text of the first marker occurrence — which may itself
be empty or "Unknown". -/
theorem status_extraction (s : List Char) :
    (statusSearch s = none → parse_status s = "Unknown".data) ∧
    (∀ g, statusSearch s = some g → parse_status s = pyStrip (strip_html g)) := by
  constructor
  · intro h
    simp [parse_status, h]
  · intro g h
    simp [parse_status, h]

/-- C7 (witness): the amended extraction at a concrete marker. -/
theorem status_extraction_witness :
    parse_status "<b>Status: Up</b>".data = pyStrip (strip_html "Up".data) :=
  (status_extraction "<b>Status: Up</b>".data).2 "Up".data (by decide)

/-- C9: both parsers return exactly one incident per entry/item element —
the parsed count equals the element count — and keep the entry ids in
document order without re-sorting. -/
theorem parse_preserves_count_order (root : XElem) (p : String) :
    (parse_atom_feed root p).length = (atomEntries root).length ∧
    (parse_atom_feed root p).map Incident.id
      = (atomEntries root).map (fun e => (getText e (atomNS "id")).getD "") ∧
    (parse_rss_feed root p).length = (rssItems root).length ∧
    (parse_rss_feed root p).map Incident.id
      = (rssItems root).map (fun it =>
          match getText it "guid" with
          | some s => s
          | none => (getText it "link").getD "") := by
  refine ⟨?_, ?_, ?_, ?_⟩
  · simp [parse_atom_feed]
  · simp only [parse_atom_feed, List.map_map]
    congr 1
  · simp [parse_rss_feed]
  · simp only [parse_rss_feed, List.map_map]
    congr 1

/-! Helper lemmas for the whitespace-collapsing contract of _strip_html. -/

theorem noWSRun_of_allNonWS : ∀ l, allNonWS l = true → noWSRun l = true := by
  intro l
  induction l with
  | nil => intro h; rfl
  | cons c t ih =>
    intro h
    simp only [allNonWS, List.all_cons, Bool.and_eq_true] at h
    cases t with
    | nil => rfl
    | cons b t2 =>
      have hb : isPySpace b = false := by
        have := h.2
        simp only [allNonWS, List.all_cons, Bool.and_eq_true] at this
        simpa using this.1
      simp only [noWSRun, Bool.and_eq_true]
      exact ⟨by simp [hb], ih h.2⟩

theorem headNotWS_of_allNonWS : ∀ l, allNonWS l = true → headNotWS l = true := by
  intro l h
  cases l with
  | nil => rfl
  | cons c t =>
    simp only [allNonWS, List.all_cons, Bool.and_eq_true] at h
    simpa [headNotWS] using h.1

theorem noWSRun_tail : ∀ c t, noWSRun (c :: t) = true → noWSRun t = true := by
  intro c t h
  cases t with
  | nil => rfl
  | cons b t2 =>
    simp only [noWSRun, Bool.and_eq_true] at h
    exact h.2

theorem noWSRun_nonws_append :
    ∀ a b, allNonWS a = true → noWSRun b = true → noWSRun (a ++ b) = true := by
  intro a
  induction a with
  | nil => intro b _ hb; simpa using hb
  | cons c t ih =>
    intro b ha hb
    simp only [allNonWS, List.all_cons, Bool.and_eq_true] at ha
    have hc : isPySpace c = false := by simpa using ha.1
    have hrest := ih b ha.2 hb
    simp only [List.cons_append]
    cases hz : t ++ b with
    | nil => rfl
    | cons y t2 =>
      rw [hz] at hrest
      simp only [noWSRun, Bool.and_eq_true]
      exact ⟨by simp [hc], hrest⟩

theorem noWSRun_space_cons :
    ∀ b, headNotWS b = true → noWSRun b = true → noWSRun (' ' :: b) = true := by
  intro b hh hr
  cases b with
  | nil => rfl
  | cons c t =>
    simp only [headNotWS, Bool.not_eq_true'] at hh
    simp only [noWSRun, Bool.and_eq_true]
    exact ⟨by simp [hh], hr⟩

theorem headNotWS_append_left :
    ∀ a b, a ≠ [] → headNotWS (a ++ b) = headNotWS a := by
  intro a b ha
  cases a with
  | nil => exact absurd rfl ha
  | cons c t => rfl

theorem joinWS_ne_nil :
    ∀ ws, ws ≠ [] → (∀ w ∈ ws, w ≠ []) → joinWS ws ≠ [] := by
  intro ws hne hw
  cases ws with
  | nil => exact absurd rfl hne
  | cons w rest =>
    cases rest with
    | nil =>
      simpa [joinWS] using hw w (by simp)
    | cons v rest2 =>
      simp only [joinWS]
      have : w ≠ [] := hw w (by simp)
      cases w with
      | nil => exact absurd rfl this
      | cons c t => simp

theorem joinWS_good :
    ∀ ws, (∀ w ∈ ws, w ≠ [] ∧ allNonWS w = true) →
      noWSRun (joinWS ws) = true ∧ headNotWS (joinWS ws) = true ∧
      headNotWS (joinWS ws).reverse = true := by
  intro ws
  induction ws with
  | nil => intro _; exact ⟨rfl, rfl, rfl⟩
  | cons w rest ih =>
    intro h
    have hw := h w (by simp)
    cases rest with
    | nil =>
      simp only [joinWS]
      refine ⟨noWSRun_of_allNonWS w hw.2, headNotWS_of_allNonWS w hw.2, ?_⟩
      refine headNotWS_of_allNonWS w.reverse ?_
      simpa [allNonWS] using hw.2
    | cons v rest2 =>
      have hrest : ∀ u ∈ v :: rest2, u ≠ [] ∧ allNonWS u = true := by
        intro u hu
        exact h u (by simp [hu])
      have hih := ih hrest
      have hjne : joinWS (v :: rest2) ≠ [] :=
        joinWS_ne_nil (v :: rest2) (by simp) (fun u hu => (hrest u hu).1)
      simp only [joinWS]
      refine ⟨?_, ?_, ?_⟩
      · refine noWSRun_nonws_append w (' ' :: joinWS (v :: rest2)) hw.2 ?_
        exact noWSRun_space_cons _ hih.2.1 hih.1
      · rw [headNotWS_append_left w _ hw.1]
        exact headNotWS_of_allNonWS w hw.2
      · rw [List.reverse_append, List.reverse_cons, List.append_assoc]
        rw [headNotWS_append_left _ _ (by simpa using hjne)]
        exact hih.2.2

theorem pySplitAux_words :
    ∀ s acc, allNonWS acc = true →
      ∀ w ∈ pySplitAux s acc, w ≠ [] ∧ allNonWS w = true := by
  intro s
  induction s with
  | nil =>
    intro acc hacc w hw
    by_cases ha : acc = []
    · simp [pySplitAux, ha] at hw
    · simp only [pySplitAux, if_neg ha, List.mem_singleton] at hw
      subst hw
      refine ⟨by simpa using ha, ?_⟩
      simpa [allNonWS] using hacc
  | cons c t ih =>
    intro acc hacc w hw
    by_cases hc : isPySpace c = true
    · by_cases ha : acc = []
      · simp only [pySplitAux, hc, if_true, ha, if_pos rfl] at hw
        exact ih [] rfl w (by simpa [ha] using hw)
      · simp only [pySplitAux, hc, if_true, if_neg ha, List.mem_cons] at hw
        rcases hw with hw | hw
        · subst hw
          refine ⟨by simpa using ha, ?_⟩
          simpa [allNonWS] using hacc
        · exact ih [] rfl w hw
    · have hc2 : isPySpace c = false := by simpa using hc
      simp only [pySplitAux, hc2] at hw
      refine ih (c :: acc) ?_ w (by simpa using hw)
      simp [allNonWS, hc2]
      simpa [allNonWS] using hacc

theorem pySplitAux_chars :
    ∀ s acc w, w ∈ pySplitAux s acc → ∀ c ∈ w, c ∈ s ∨ c ∈ acc := by
  intro s
  induction s with
  | nil =>
    intro acc w hw c hc
    by_cases ha : acc = []
    · simp [pySplitAux, ha] at hw
    · simp only [pySplitAux, if_neg ha, List.mem_singleton] at hw
      subst hw
      exact Or.inr (List.mem_reverse.mp hc)
  | cons x t ih =>
    intro acc w hw c hc
    by_cases hx : isPySpace x = true
    · by_cases ha : acc = []
      · simp only [pySplitAux, hx, if_true, ha, if_pos rfl] at hw
        rcases ih [] w hw c hc with h | h
        · exact Or.inl (by simp [h])
        · simp at h
      · simp only [pySplitAux, hx, if_true, if_neg ha, List.mem_cons] at hw
        rcases hw with hw | hw
        · subst hw
          exact Or.inr (List.mem_reverse.mp hc)
        · rcases ih [] w hw c hc with h | h
          · exact Or.inl (by simp [h])
          · simp at h
    · have hx2 : isPySpace x = false := by simpa using hx
      simp only [pySplitAux, hx2] at hw
      rcases ih (x :: acc) w (by simpa using hw) c hc with h | h
      · exact Or.inl (by simp [h])
      · rcases List.mem_cons.mp h with h | h
        · exact Or.inl (by simp [h])
        · exact Or.inr h

theorem joinWS_chars :
    ∀ ws c, c ∈ joinWS ws → c = ' ' ∨ ∃ w ∈ ws, c ∈ w := by
  intro ws
  induction ws with
  | nil => intro c hc; simp [joinWS] at hc
  | cons w rest ih =>
    intro c hc
    cases rest with
    | nil =>
      simp only [joinWS] at hc
      exact Or.inr ⟨w, by simp, hc⟩
    | cons v rest2 =>
      simp only [joinWS, List.mem_append, List.mem_cons] at hc
      rcases hc with hc | hc | hc
      · exact Or.inr ⟨w, by simp, hc⟩
      · exact Or.inl hc
      · rcases ih c hc with h | ⟨u, hu, hcu⟩
        · exact Or.inl h
        · exact Or.inr ⟨u, by simp [hu], hcu⟩

theorem tagScan_subset : ∀ t r, tagScan t = some r → ∀ c ∈ r, c ∈ t := by
  intro t
  induction t with
  | nil => intro r h; simp [tagScan] at h
  | cons x t ih =>
    intro r h c hc
    simp only [tagScan] at h
    by_cases hx : x = '>'
    · simp [hx] at h
      subst h
      simp [hc]
    · simp [hx] at h
      exact List.mem_cons_of_mem x (ih r h c hc)

theorem tagEnd_subset : ∀ t r, tagEnd t = some r → ∀ c ∈ r, c ∈ t := by
  intro t r h c hc
  cases t with
  | nil => simp [tagEnd] at h
  | cons x t =>
    simp only [tagEnd] at h
    by_cases hx : x = '>'
    · simp [hx] at h
    · simp [hx] at h
      exact List.mem_cons_of_mem x (tagScan_subset t r h c hc)

theorem subTagsGo_chars :
    ∀ f s c, c ∈ subTagsGo f s → c = ' ' ∨ c ∈ s := by
  intro f
  induction f with
  | zero =>
    intro s c hc
    cases s with
    | nil => simp [subTagsGo] at hc
    | cons x t => exact Or.inr (by simpa [subTagsGo] using hc)
  | succ f ih =>
    intro s c hc
    cases s with
    | nil => simp [subTagsGo] at hc
    | cons x t =>
      simp only [subTagsGo] at hc
      by_cases hx : x = '<'
      · rw [if_pos hx] at hc
        cases he : tagEnd t with
        | some r =>
          rw [he] at hc
          rcases List.mem_cons.mp hc with hc | hc
          · exact Or.inl hc
          · rcases ih r c hc with h | h
            · exact Or.inl h
            · exact Or.inr (List.mem_cons_of_mem x (tagEnd_subset t r he c h))
        | none =>
          rw [he] at hc
          rcases List.mem_cons.mp hc with hc | hc
          · exact Or.inr (by simp [hc])
          · rcases ih t c hc with h | h
            · exact Or.inl h
            · exact Or.inr (List.mem_cons_of_mem x h)
      · rw [if_neg hx] at hc
        rcases List.mem_cons.mp hc with hc | hc
        · exact Or.inr (by simp [hc])
        · rcases ih t c hc with h | h
          · exact Or.inl h
          · exact Or.inr (List.mem_cons_of_mem x h)

theorem dropWhile_of_headNotWS :
    ∀ x, headNotWS x = true → x.dropWhile (fun c => isPySpace c) = x := by
  intro x hx
  cases x with
  | nil => rfl
  | cons c t =>
    simp only [headNotWS, Bool.not_eq_true'] at hx
    simp [List.dropWhile, hx]

theorem pyStrip_eq_self :
    ∀ x, headNotWS x = true → headNotWS x.reverse = true → pyStrip x = x := by
  intro x h1 h2
  unfold pyStrip
  rw [dropWhile_of_headNotWS x h1, dropWhile_of_headNotWS x.reverse h2,
    List.reverse_reverse]

theorem collapseWS_good (s : List Char) :
    noWSRun (collapseWS s) = true ∧ headNotWS (collapseWS s) = true ∧
    headNotWS (collapseWS s).reverse = true := by
  refine joinWS_good (pySplit s) ?_
  intro w hw
  exact pySplitAux_words s [] rfl w hw

/-- C8 (counterexample): the claim says tag-stripping output contains no
angle brackets. A lone angle bracket is not part of any `<...>` span (the
regex needs a non-empty body and a closing bracket), so it survives
stripping verbatim. -/
theorem strip_html_bracket_cex :
    strip_html "a < b".data = "a < b".data ∧ '<' ∈ strip_html "a < b".data := by
  decide

/-- C8 (amended): tag-stripping replaces every `<...>` span with a single
space, collapses whitespace runs and trims the ends: its output contains no
run of more than one whitespace character and no leading or trailing
whitespace, and every character of the output is either a space or a
character of the input — so an angle bracket appears in the output only
where the input has one outside a replaced span (e.g. an unmatched
bracket). -/
theorem strip_html_collapses (s : List Char) :
    noWSRun (strip_html s) = true ∧ headNotWS (strip_html s) = true ∧
    headNotWS (strip_html s).reverse = true ∧
    (∀ c ∈ strip_html s, c = ' ' ∨ c ∈ s) := by
  have hg := collapseWS_good (subTags s)
  have heq : strip_html s = collapseWS (subTags s) := by
    unfold strip_html
    exact pyStrip_eq_self _ hg.2.1 hg.2.2
  refine ⟨by rw [heq]; exact hg.1, by rw [heq]; exact hg.2.1,
    by rw [heq]; exact hg.2.2, ?_⟩
  intro c hc
  rw [heq] at hc
  rcases joinWS_chars (pySplit (subTags s)) c hc with h | ⟨w, hw, hcw⟩
  · exact Or.inl h
  · rcases pySplitAux_chars (subTags s) [] w hw c hcw with h | h
    · exact subTagsGo_chars s.length s c (by simpa [subTags] using h)
    · simp at h

/-- C8 (witness): the amended character-provenance property at a concrete
input with an unmatched bracket. -/
theorem strip_html_collapses_witness :
    '<' = ' ' ∨ '<' ∈ "x <y".data :=
  (strip_html_collapses "x <y".data).2.2.2 '<' (by decide)

end StatusTracker
